import Mathlib

/-!
Verification of the kufu-backend RAG ingestion pipeline.

The TypeScript source is shallowly embedded: strings are `List Char`
(JS strings indexed by code unit), JS numbers that are used as integers
are `Int`/`Nat`, fallible calls return `Except`, and database tables are
lists of row structures.  External services (the embedding provider, the
HTTP fetcher, the URL parser of the WHATWG `URL` class, the pgvector
distance operator) are parameters of the embedded functions.
-/

/-! ### Chunker (src/rag/chunker.ts) -/

/-- Row shape produced by `chunkText`. -/
structure Chunk where
  chunk_index : Nat
  chunk_text : List Char
  token_estimate : Nat
deriving DecidableEq, Repr

/-- Options bag of `chunkText`; JS numbers are embedded as `Int`. -/
structure ChunkTextOptions where
  chunkSize : Option Int := none
  overlap : Option Int := none

/-- `text.replace(/\s+/g, ' ')`: collapse every whitespace run to a single
space.  The flag records whether we are inside a whitespace run. -/
def collapseWs : Bool → List Char → List Char
  | _, [] => []
  | inRun, c :: rest =>
    if c.isWhitespace then
      if inRun then collapseWs true rest
      else ' ' :: collapseWs true rest
    else c :: collapseWs false rest

/-- `s.trim()`: drop whitespace from both ends. -/
def trimChars (l : List Char) : List Char :=
  ((l.dropWhile Char.isWhitespace).reverse.dropWhile Char.isWhitespace).reverse

/-- `normalizeContent` from chunker.ts. -/
def normalizeContent (text : List Char) : List Char :=
  trimChars (collapseWs false text)

/-- `estimateTokens`: `Math.max(1, Math.ceil(text.length / 4))`. -/
def estimateTokens (text : List Char) : Nat :=
  max 1 ((text.length + 3) / 4)

/-- The effective (clamped) chunk size:
`Math.max(300, Math.min(options.chunkSize ?? 1050, 2000))`. -/
def effChunkSize (options : ChunkTextOptions) : Nat :=
  (max 300 (min (options.chunkSize.getD 1050) 2000)).toNat

/-- The effective (clamped) overlap:
`Math.max(0, Math.min(options.overlap ?? 150, Math.floor(chunkSize / 2)))`. -/
def effOverlap (options : ChunkTextOptions) : Nat :=
  (max 0 (min (options.overlap.getD 150) ((effChunkSize options : Int) / 2))).toNat

/-- Placeholder chunk text used for pages with no extracted content. -/
def placeholderText : List Char :=
  "No textual content extracted from this page.".toList

/-- The `for (let start = 0; start < text.length; start += step)` loop of
`chunkText`.  `fuel` is an upper bound on the remaining iterations; it is
called with `text.length + 1`, which is enough because `step ≥ 1`. -/
def chunkLoop (text : List Char) (chunkSize step : Nat) : Nat → Nat → Nat → List Chunk
  | 0, _, _ => []
  | fuel + 1, start, index =>
    if start < text.length then
      let rawChunk := trimChars ((text.drop start).take chunkSize)
      if rawChunk.isEmpty then
        chunkLoop text chunkSize step fuel (start + step) index
      else
        { chunk_index := index, chunk_text := rawChunk,
          token_estimate := estimateTokens rawChunk } ::
          (if text.length ≤ start + chunkSize then []
           else chunkLoop text chunkSize step fuel (start + step) (index + 1))
    else []

/-- `chunkText` from chunker.ts. -/
def chunkText (input : List Char) (options : ChunkTextOptions) : List Chunk :=
  let chunkSize := effChunkSize options
  let overlap := effOverlap options
  let text := normalizeContent input
  if text.isEmpty then
    [{ chunk_index := 0, chunk_text := placeholderText,
       token_estimate := estimateTokens placeholderText }]
  else
    chunkLoop text chunkSize (max 1 (chunkSize - overlap)) (text.length + 1) 0 0

/-- Reconstruction operator taken from the spec's words: concatenate the
chunk texts with each later chunk's leading overlap region removed. -/
def reconstructChunks (overlap : Nat) : List Chunk → List Char
  | [] => []
  | c :: rest => c.chunk_text ++ (rest.map (fun d => d.chunk_text.drop overlap)).flatten

/-! ### Chunker lemmas -/

theorem effChunkSize_bounds (o : ChunkTextOptions) :
    300 ≤ effChunkSize o ∧ effChunkSize o ≤ 2000 := by
  unfold effChunkSize
  generalize o.chunkSize.getD 1050 = a
  omega

theorem effOverlap_lt_effChunkSize (o : ChunkTextOptions) :
    effOverlap o < effChunkSize o := by
  have h := effChunkSize_bounds o
  unfold effOverlap
  generalize o.overlap.getD 150 = b
  omega

theorem chunkLoop_map_index (text : List Char) (cs step : Nat) :
    ∀ (fuel start index : Nat),
      (chunkLoop text cs step fuel start index).map Chunk.chunk_index =
        List.range' index (chunkLoop text cs step fuel start index).length := by
  intro fuel
  induction fuel with
  | zero => intro start index; rfl
  | succ fuel ih =>
    intro start index
    simp only [chunkLoop]
    split
    · split
      · exact ih (start + step) index
      · split
        · simp [List.range'_succ]
        · simp only [List.map_cons, List.length_cons, List.range'_succ, List.cons.injEq,
            true_and]
          exact ih (start + step) (index + 1)
    · rfl

theorem isEmpty_false_of_ne {l : List Char} (h : l ≠ []) : l.isEmpty = false := by
  cases l with
  | nil => exact absurd rfl h
  | cons a t => rfl

theorem take_drop_swap (l : List Char) (s cs ov : Nat) :
    ((l.drop s).take cs).drop ov = (l.drop (s + ov)).take (cs - ov) := by
  rw [List.drop_take, List.drop_drop]

theorem take_then_drop_append (l : List Char) (a b : Nat) :
    (l.drop a).take b ++ l.drop (a + b) = l.drop a := by
  have h : l.drop (a + b) = (l.drop a).drop b := (List.drop_drop b a l).symm
  rw [h]
  exact List.take_append_drop b (l.drop a)

theorem take_nonempty_of_lt {text : List Char} {start cs : Nat}
    (hlt : start < text.length) (hcs : 0 < cs) : (text.drop start).take cs ≠ [] := by
  have h1 : text.drop start ≠ [] := by
    simp only [ne_eq, List.drop_eq_nil_iff]
    omega
  cases hd : text.drop start with
  | nil => exact absurd hd h1
  | cons c rest =>
    cases cs with
    | zero => omega
    | succ n => simp [List.take_succ_cons]

theorem chunkLoop_drop_flatten (text : List Char) (cs ov : Nat) (hov : ov < cs)
    (hclean : ∀ k, k ≤ text.length →
      trimChars ((text.drop (k * (cs - ov))).take cs) =
        (text.drop (k * (cs - ov))).take cs) :
    ∀ (fuel k index : Nat), text.length - k * (cs - ov) < fuel →
      ((chunkLoop text cs (cs - ov) fuel (k * (cs - ov)) index).map
          (fun d => d.chunk_text.drop ov)).flatten =
        text.drop (k * (cs - ov) + ov) := by
  intro fuel
  induction fuel with
  | zero => intro k index hfuel; omega
  | succ fuel ih =>
    intro k index hfuel
    by_cases hlt : k * (cs - ov) < text.length
    · have hk : k ≤ text.length := by
        have hk1 : k ≤ k * (cs - ov) := Nat.le_mul_of_pos_right k (by omega)
        omega
      have hw := hclean k hk
      have hne : (text.drop (k * (cs - ov))).take cs ≠ [] :=
        take_nonempty_of_lt hlt (by omega)
      have hemp : ((text.drop (k * (cs - ov))).take cs).isEmpty = false :=
        isEmpty_false_of_ne hne
      simp only [chunkLoop, if_pos hlt, hw, hemp, Bool.false_eq_true, if_false]
      by_cases hbrk : text.length ≤ k * (cs - ov) + cs
      · rw [if_pos hbrk]
        simp only [List.map_cons, List.map_nil, List.flatten_cons, List.flatten_nil,
          List.append_nil]
        rw [List.drop_take, List.drop_drop]
        rw [List.take_of_length_le]
        simp only [List.length_drop]
        omega
      · rw [if_neg hbrk]
        simp only [List.map_cons, List.flatten_cons]
        have hsucc : k * (cs - ov) + (cs - ov) = (k + 1) * (cs - ov) := by ring
        have hfuel' : text.length - (k + 1) * (cs - ov) < fuel := by
          have h1 : (k + 1) * (cs - ov) = k * (cs - ov) + (cs - ov) := by ring
          omega
        rw [hsucc, ih (k + 1) (index + 1) hfuel']
        rw [take_drop_swap]
        have harith : (k + 1) * (cs - ov) + ov = (k * (cs - ov) + ov) + (cs - ov) := by
          have h1 : (k + 1) * (cs - ov) = k * (cs - ov) + (cs - ov) := by ring
          omega
        rw [harith]
        exact take_then_drop_append text (k * (cs - ov) + ov) (cs - ov)
    · have hnil : text.drop (k * (cs - ov) + ov) = [] :=
        List.drop_eq_nil_of_le (by omega)
      simp only [chunkLoop, if_neg hlt, List.map_nil, List.flatten_nil, hnil]

theorem chunkLoop_reconstruct (text : List Char) (cs ov : Nat) (hov : ov < cs)
    (hclean : ∀ k, k ≤ text.length →
      trimChars ((text.drop (k * (cs - ov))).take cs) =
        (text.drop (k * (cs - ov))).take cs)
    (hne : text ≠ []) :
    ∀ fuel, text.length < fuel →
      reconstructChunks ov (chunkLoop text cs (cs - ov) fuel 0 0) = text := by
  intro fuel hfuel
  have hlen : 0 < text.length := List.length_pos.mpr hne
  cases fuel with
  | zero => omega
  | succ fuel =>
    have hw0 : trimChars ((text.drop 0).take cs) = (text.drop 0).take cs := by
      have := hclean 0 (by omega)
      simpa using this
    have hne0 : (text.drop 0).take cs ≠ [] := take_nonempty_of_lt hlen (by omega)
    have hemp : ((text.drop 0).take cs).isEmpty = false := isEmpty_false_of_ne hne0
    simp only [chunkLoop, if_pos hlen, hw0, hemp, Bool.false_eq_true, if_false]
    by_cases hbrk : text.length ≤ 0 + cs
    · rw [if_pos hbrk]
      simp only [reconstructChunks, List.map_nil, List.flatten_nil, List.append_nil,
        List.drop_zero]
      exact List.take_of_length_le (by omega)
    · rw [if_neg hbrk]
      simp only [reconstructChunks, List.drop_zero]
      have h1 : (0 + (cs - ov)) = 1 * (cs - ov) := by ring
      have hfuel' : text.length - 1 * (cs - ov) < fuel := by omega
      rw [h1, chunkLoop_drop_flatten text cs ov hov hclean fuel 1 1 hfuel']
      have h2 : 1 * (cs - ov) + ov = cs := by omega
      rw [h2]
      exact List.take_append_drop cs text

/-- C4 (amended): for any input whose whitespace-normalized form is
non-empty, `chunkText` returns chunks carrying the consecutive indices
0, 1, 2, …; and, provided every sliding window of the normalized text is
already trimmed (no window boundary adjacent to whitespace), concatenating
the chunk texts with each later chunk's leading overlap region removed
reconstructs the normalized input exactly.  The proviso is forced by the
per-chunk `.trim()` in the source: without it exact reconstruction fails
(see the counterexample). -/
theorem chunkText_indices_and_reconstruction (input : List Char)
    (options : ChunkTextOptions) (hne : normalizeContent input ≠ []) :
    (chunkText input options).map Chunk.chunk_index =
        List.range (chunkText input options).length ∧
    ((∀ k, k ≤ (normalizeContent input).length →
        trimChars (((normalizeContent input).drop
            (k * (effChunkSize options - effOverlap options))).take
              (effChunkSize options)) =
          ((normalizeContent input).drop
            (k * (effChunkSize options - effOverlap options))).take
              (effChunkSize options)) →
      reconstructChunks (effOverlap options) (chunkText input options) =
        normalizeContent input) := by
  have hov := effOverlap_lt_effChunkSize options
  have hmax : max 1 (effChunkSize options - effOverlap options) =
      effChunkSize options - effOverlap options := by omega
  have hemp : (normalizeContent input).isEmpty = false := isEmpty_false_of_ne hne
  constructor
  · unfold chunkText
    simp only [hemp, Bool.false_eq_true, if_false, hmax]
    rw [chunkLoop_map_index]
    exact (List.range_eq_range' _).symm
  · intro hclean
    unfold chunkText
    simp only [hemp, Bool.false_eq_true, if_false, hmax]
    exact chunkLoop_reconstruct _ _ _ hov hclean hne _ (by omega)

set_option maxRecDepth 40000 in
/-- C4 witness: a concrete whitespace-free input on which the amended
theorem applies, with both hypotheses discharged by evaluation. -/
theorem chunkText_indices_and_reconstruction_witness :
    reconstructChunks (effOverlap { chunkSize := some 300, overlap := some 150 })
        (chunkText (List.replicate 301 'a')
          { chunkSize := some 300, overlap := some 150 }) =
      normalizeContent (List.replicate 301 'a') :=
  (chunkText_indices_and_reconstruction (List.replicate 301 'a')
      { chunkSize := some 300, overlap := some 150 } (by decide)).2 (by decide)

set_option maxRecDepth 40000 in
/-- C4 counterexample: the claim as stated is false.  With chunkSize 300 and
overlap 150, an input whose 300th character is a space loses that space to
the per-chunk `.trim()`, so concatenating the chunk texts with overlaps
removed does not reconstruct the normalized input. -/
theorem chunkText_reconstruction_counterexample :
    normalizeContent (List.replicate 299 'a' ++ ' ' :: List.replicate 100 'b') ≠ [] ∧
    reconstructChunks (effOverlap { chunkSize := some 300, overlap := some 150 })
        (chunkText (List.replicate 299 'a' ++ ' ' :: List.replicate 100 'b')
          { chunkSize := some 300, overlap := some 150 }) ≠
      normalizeContent (List.replicate 299 'a' ++ ' ' :: List.replicate 100 'b') := by
  decide

/-- C5: an input that normalizes to the empty string yields exactly one
chunk, with index 0, a non-empty placeholder text and a token estimate of
at least 1. -/
theorem chunkText_empty_input_placeholder (input : List Char)
    (options : ChunkTextOptions) (h : normalizeContent input = []) :
    ∃ c : Chunk, chunkText input options = [c] ∧ c.chunk_index = 0 ∧
      c.chunk_text ≠ [] ∧ 1 ≤ c.token_estimate := by
  refine ⟨⟨0, placeholderText, estimateTokens placeholderText⟩, ?_, rfl,
    by decide, by decide⟩
  unfold chunkText
  simp only [h, List.isEmpty_nil, if_true]

/-- C5 witness: the empty input itself. -/
theorem chunkText_empty_input_placeholder_witness :
    ∃ c : Chunk, chunkText [] {} = [c] ∧ c.chunk_index = 0 ∧
      c.chunk_text ≠ [] ∧ 1 ≤ c.token_estimate :=
  chunkText_empty_input_placeholder [] {} (by decide)

/-! ### Embedding client (src/rag/embeddings.ts)

The OpenAI call is a parameter `op`; it receives the zero-based attempt
number so that distinct attempts can fail with distinct errors.  A provider
response is embedded as its list of data rows, each row being its embedding
vector (a `List ℚ`).  `withRetryRun` additionally returns the number of
times the operation was invoked. -/

/-- A JS exception as inspected by `shouldRetry`: either an object carrying
optional `status` and `code` fields, or any other value. -/
inductive JsError where
  | obj (status : Option Int) (code : Option String)
  | nonObject
deriving DecidableEq, Repr

def MAX_RETRIES : Nat := 5

def EMBEDDING_BATCH_SIZE : Nat := 32

/-- `shouldRetry` from embeddings.ts. -/
def shouldRetry : JsError → Bool
  | .nonObject => false
  | .obj status code =>
    let s := status.getD 0
    if s = 429 ∨ 500 ≤ s then true
    else code == some "ETIMEDOUT" || code == some "ECONNRESET"

/-- The `while (attempt < MAX_RETRIES)` loop of `withRetry`, instrumented
with the number of invocations of `operation`.  The fuel argument only
bounds the iteration count; it starts at `MAX_RETRIES`, which is exact
because `attempt` increases by one per iteration. -/
def withRetryGo (op : Nat → Except JsError α) : Nat → Nat → Except JsError α × Nat
  | _, 0 => (.error .nonObject, 0)
  | attempt, fuel + 1 =>
    if attempt < MAX_RETRIES then
      match op attempt with
      | .ok value => (.ok value, 1)
      | .error e =>
        if MAX_RETRIES ≤ attempt + 1 ∨ shouldRetry e = false then (.error e, 1)
        else
          let r := withRetryGo op (attempt + 1) fuel
          (r.1, r.2 + 1)
    else (.error .nonObject, 0)

/-- `withRetry` from embeddings.ts, returning the result together with the
number of invocations of the wrapped operation. -/
def withRetryRun (op : Nat → Except JsError α) : Except JsError α × Nat :=
  withRetryGo op 0 MAX_RETRIES

/-- `embedText`: one retried provider call, then
`response.data[0]?.embedding ?? []`. -/
def embedText (op : Nat → Except JsError (List (List ℚ))) :
    Except JsError (List ℚ) × Nat :=
  let r := withRetryRun op
  (r.1.map (fun rows => rows.head?.getD []), r.2)

/-- The batching of `embedTexts`: successive 32-element slices of the
input.  The fuel starts at the list length, which is enough because every
step removes at least one element. -/
def splitBatches : Nat → List α → List (List α)
  | 0, _ => []
  | _, [] => []
  | fuel + 1, l => l.take EMBEDDING_BATCH_SIZE :: splitBatches fuel (l.drop EMBEDDING_BATCH_SIZE)

/-- The batch loop of `embedTexts`: each batch goes through `withRetry`;
a failure propagates immediately, a success appends the returned rows. -/
def embedTextsLoop (op : List α → Nat → Except JsError (List (List ℚ))) :
    List (List α) → List (List ℚ) → Except JsError (List (List ℚ)) × Nat
  | [], acc => (.ok acc, 0)
  | batch :: rest, acc =>
    let r := withRetryRun (op batch)
    match r.1 with
    | .error e => (.error e, r.2)
    | .ok rows =>
      let r2 := embedTextsLoop op rest (acc ++ rows)
      (r2.1, r.2 + r2.2)

/-- `embedTexts` from embeddings.ts, instrumented with the total number of
provider invocations. -/
def embedTexts (op : List α → Nat → Except JsError (List (List ℚ)))
    (texts : List α) : Except JsError (List (List ℚ)) × Nat :=
  embedTextsLoop op (splitBatches texts.length texts) []

/-- The embedding dimension fixed by the `rag_chunks.embedding vector(1536)`
column of 002_rag.sql. -/
def ragEmbeddingDim : Nat := 1536

theorem withRetryRun_all_retryable (op : Nat → Except JsError α)
    (errs : Nat → JsError) (hop : ∀ n, op n = .error (errs n))
    (hr : ∀ n, shouldRetry (errs n) = true) :
    withRetryRun op = (.error (errs 4), 5) := by
  simp [withRetryRun, withRetryGo, MAX_RETRIES, hop 0, hop 1, hop 2, hop 3, hop 4,
    hr 0, hr 1, hr 2, hr 3]

theorem withRetryRun_first_nonretryable (op : Nat → Except JsError α) (e : JsError)
    (hop : op 0 = .error e) (hr : shouldRetry e = false) :
    withRetryRun op = (.error e, 1) := by
  simp [withRetryRun, withRetryGo, MAX_RETRIES, hop, hr]

theorem embedTexts_head_batch_fails (op : List α → Nat → Except JsError (List (List ℚ)))
    (texts : List α) (hne : texts ≠ []) (e : JsError) (n : Nat)
    (h : withRetryRun (op (texts.take EMBEDDING_BATCH_SIZE)) = (.error e, n)) :
    embedTexts op texts = (.error e, n) := by
  obtain ⟨c, t, rfl⟩ : ∃ c t, texts = c :: t := by
    cases texts with
    | nil => exact absurd rfl hne
    | cons c t => exact ⟨c, t, rfl⟩
  simp only [embedTexts, List.length_cons, splitBatches, embedTextsLoop, h]

/-- C2: when every provider invocation fails with a retryable error
(HTTP 429/5xx or a timeout/reset code), `embedText` and `embedTexts` invoke
the provider exactly 5 times and propagate the last error; a non-retryable
first failure (e.g. HTTP 400) propagates after exactly one invocation. -/
theorem embed_retry_bounds :
    (∀ (op : Nat → Except JsError (List (List ℚ))) (errs : Nat → JsError),
      (∀ n, op n = .error (errs n)) → (∀ n, shouldRetry (errs n) = true) →
      embedText op = (.error (errs 4), 5)) ∧
    (∀ (op : Nat → Except JsError (List (List ℚ))) (e : JsError),
      op 0 = .error e → shouldRetry e = false →
      embedText op = (.error e, 1)) ∧
    (∀ (op : List (List Char) → Nat → Except JsError (List (List ℚ)))
      (errs : Nat → JsError) (texts : List (List Char)), texts ≠ [] →
      (∀ n, op (texts.take EMBEDDING_BATCH_SIZE) n = .error (errs n)) →
      (∀ n, shouldRetry (errs n) = true) →
      embedTexts op texts = (.error (errs 4), 5)) ∧
    (∀ (op : List (List Char) → Nat → Except JsError (List (List ℚ)))
      (e : JsError) (texts : List (List Char)), texts ≠ [] →
      op (texts.take EMBEDDING_BATCH_SIZE) 0 = .error e → shouldRetry e = false →
      embedTexts op texts = (.error e, 1)) := by
  refine ⟨?_, ?_, ?_, ?_⟩
  · intro op errs hop hr
    simp [embedText, withRetryRun_all_retryable op errs hop hr, Except.map]
  · intro op e hop hr
    simp [embedText, withRetryRun_first_nonretryable op e hop hr, Except.map]
  · intro op errs texts hne hop hr
    exact embedTexts_head_batch_fails op texts hne _ _
      (withRetryRun_all_retryable _ errs hop hr)
  · intro op e texts hne hop hr
    exact embedTexts_head_batch_fails op texts hne _ _
      (withRetryRun_first_nonretryable _ e hop hr)

/-- C2 witness: a provider that always fails with HTTP 429 is invoked 5
times; one that fails with HTTP 400 is invoked once — for both entry
points. -/
theorem embed_retry_bounds_witness :
    embedText (fun _ => .error (JsError.obj (some 429) none)) =
      (.error (JsError.obj (some 429) none), 5) ∧
    embedText (fun _ => .error (JsError.obj (some 400) none)) =
      (.error (JsError.obj (some 400) none), 1) ∧
    embedTexts (fun (_ : List (List Char)) (_ : Nat) =>
        .error (JsError.obj (some 429) none)) [['x']] =
      (.error (JsError.obj (some 429) none), 5) ∧
    embedTexts (fun (_ : List (List Char)) (_ : Nat) =>
        .error (JsError.obj (some 400) none)) [['x']] =
      (.error (JsError.obj (some 400) none), 1) :=
  ⟨embed_retry_bounds.1 (fun _ => .error (JsError.obj (some 429) none))
      (fun _ => JsError.obj (some 429) none) (fun _ => rfl) (fun _ => rfl),
   embed_retry_bounds.2.1 (fun _ => .error (JsError.obj (some 400) none))
      (JsError.obj (some 400) none) rfl (by decide),
   embed_retry_bounds.2.2.1 _ (fun _ => JsError.obj (some 429) none) [['x']]
      (by decide) (fun _ => rfl) (fun _ => rfl),
   embed_retry_bounds.2.2.2 _ (JsError.obj (some 400) none) [['x']]
      (by decide) rfl (by decide)⟩

/-- C10: `embedText` returns the embedding of the first data row of the
provider response, and a zero-row response produces the empty vector with
no error signalled — a vector whose length does not match the fixed
1536-dimension embedding column of rag_chunks. -/
theorem embedText_first_row_or_empty (op : Nat → Except JsError (List (List ℚ)))
    (rows : List (List ℚ)) (h : op 0 = .ok rows) :
    embedText op = (.ok (rows.head?.getD []), 1) ∧
    (rows = [] → embedText op = (.ok ([] : List ℚ), 1) ∧
      ([] : List ℚ).length ≠ ragEmbeddingDim) := by
  have hrun : withRetryRun op = (.ok rows, 1) := by
    simp [withRetryRun, withRetryGo, MAX_RETRIES, h]
  constructor
  · simp [embedText, hrun, Except.map]
  · rintro rfl
    exact ⟨by simp [embedText, hrun, Except.map], by decide⟩

/-- C10 witness: a provider returning zero data rows yields the empty
vector without an error. -/
theorem embedText_first_row_or_empty_witness :
    embedText (fun _ => .ok ([] : List (List ℚ))) = (.ok ([] : List ℚ), 1) :=
  ((embedText_first_row_or_empty (fun _ => .ok []) [] rfl).2 rfl).1

/-! ### Vector store adapter (src/rag/store.ts)

Supabase tables are lists of rows; `maybeSingle` errors when more than one
row matches, as the client library does.  SHA-256 is an external primitive
and enters as the function parameter `hash`; fresh row ids and the
`new Date().toISOString()` timestamps are parameters as well. -/

/-- An `AppError` (../lib/errors.js). -/
structure AppError where
  message : String
  statusCode : Nat
deriving DecidableEq, Repr

/-- A `rag_pages` row as selected and written by store.ts. -/
structure RagPageRow where
  id : String
  chatbot_id : String
  url : String
  title : Option String
  content_text : String
  content_hash : Option String
  last_crawled_at : String
  status : String
  http_status : Option Int
  created_at : String
  updated_at : String
deriving DecidableEq, Repr

/-- Arguments of `upsertPage`. -/
structure UpsertPageArgs where
  chatbotId : String
  url : String
  title : Option String
  contentText : String
  status : Option String := none
  httpStatus : Option Int := none

/-- The `.eq('chatbot_id', …).eq('url', …)` key filter of `upsertPage`. -/
def pageKeyMatch (chatbotId url : String) (r : RagPageRow) : Bool :=
  r.chatbot_id == chatbotId && r.url == url

/-- `.maybeSingle()`: zero rows give `none`, one row gives it, more than
one row is an error. -/
def maybeSingle (p : α → Bool) (rows : List α) : Except AppError (Option α) :=
  match rows.filter p with
  | [] => .ok none
  | [r] => .ok (some r)
  | _ => .error { message := "multiple rows returned", statusCode := 500 }

/-- `upsertPage` from store.ts.  `hash` embeds `computeContentHash`,
`freshId` the id generated by the insert, `now` the ISO timestamp.
Returns the new table contents together with `{ pageId, changed }`. -/
def upsertPage (hash : String → String) (freshId now : String)
    (db : List RagPageRow) (args : UpsertPageArgs) :
    Except AppError (List RagPageRow × String × Bool) :=
  let h := hash args.contentText
  match maybeSingle (pageKeyMatch args.chatbotId args.url) db with
  | .error e => .error e
  | .ok (some existing) =>
    let changed := existing.content_hash != some h
    let db1 := db.map (fun r =>
      if r.id == existing.id then
        { r with
          title := args.title, content_text := args.contentText,
          content_hash := some h, last_crawled_at := now,
          status := args.status.getD "ok", http_status := args.httpStatus,
          updated_at := now }
      else r)
    .ok (db1, existing.id, changed)
  | .ok none =>
    let row : RagPageRow :=
      { id := freshId, chatbot_id := args.chatbotId, url := args.url,
        title := args.title, content_text := args.contentText,
        content_hash := some h, last_crawled_at := now,
        status := args.status.getD "ok", http_status := args.httpStatus,
        created_at := now, updated_at := now }
    .ok (db ++ [row], freshId, true)

/-- A `rag_chunks` row; the pgvector literal written by `toVectorLiteral`
is kept as the vector itself. -/
structure RagChunkRow where
  chatbot_id : String
  page_id : String
  chunk_index : Nat
  chunk_text : List Char
  token_estimate : Nat
  embedding : List ℚ
deriving DecidableEq, Repr

/-- The row built for one chunk by the insert of `replacePageChunks`. -/
def mkChunkRow (chatbotId pageId : String) (ce : Chunk × List ℚ) : RagChunkRow :=
  { chatbot_id := chatbotId, page_id := pageId,
    chunk_index := ce.1.chunk_index, chunk_text := ce.1.chunk_text,
    token_estimate := ce.1.token_estimate, embedding := ce.2 }

/-- `replacePageChunks` from store.ts: length check, delete of the page's
rows, insert of the new rows.  An error carries the table state at the
moment of the throw, so that "left unchanged" is expressible. -/
def replacePageChunks (db : List RagChunkRow) (chatbotId pageId : String)
    (chunks : List Chunk) (embeddings : List (List ℚ)) :
    Except (AppError × List RagChunkRow) (List RagChunkRow × Nat) :=
  if chunks.length ≠ embeddings.length then
    .error ({ message := "Chunk and embedding count mismatch", statusCode := 500 }, db)
  else
    let db1 := db.filter (fun r => !(r.page_id == pageId))
    if chunks.length = 0 then
      .ok (db1, 0)
    else
      let rows := (chunks.zip embeddings).map (mkChunkRow chatbotId pageId)
      .ok (db1 ++ rows, rows.length)

/-- Status column of `rag_ingestion_runs`. -/
inductive RunStatus where
  | running
  | done
  | failed
  | canceled
deriving DecidableEq, Repr

/-- A `rag_ingestion_runs` row (fields touched by the stale sweep). -/
structure RagIngestionRunRow where
  id : String
  chatbot_id : String
  status : RunStatus
  error : Option String
  finished_at : Option Nat
  updated_at : Nat
deriving DecidableEq, Repr

/-- The error message written by the stale sweep. -/
def staleHeartbeatMessage : String := "Marked as failed by scheduler: stale heartbeat"

/-- The `status = 'running' ∧ updated_at < staleBefore` filter of the
sweep's `update … .eq(…).lt(…)`. -/
def isStaleRunning (staleBefore : Nat) (r : RagIngestionRunRow) : Bool :=
  r.status == RunStatus.running && decide (r.updated_at < staleBefore)

/-- `failStuckIngestionRuns` from store.ts: timestamps are embedded as
naturals ordered as the ISO strings are.  Returns the new table and the
number of rows the update returned. -/
def failStuckIngestionRuns (now : Nat) (db : List RagIngestionRunRow)
    (staleBefore : Nat) : List RagIngestionRunRow × Nat :=
  ((db.map fun r =>
      if isStaleRunning staleBefore r then
        { r with
          status := RunStatus.failed, error := some staleHeartbeatMessage,
          finished_at := some now, updated_at := now }
      else r),
   (db.filter (isStaleRunning staleBefore)).length)

/-! ### upsertPage lemmas -/

theorem pageKeyMatch_update (c u : String) (x r0 : RagPageRow)
    (t : Option String) (ct : String) (ch : Option String) (lc : String)
    (st : String) (hs : Option Int) (ua : String) :
    pageKeyMatch c u
      (if x.id == r0.id then
        { x with
          title := t, content_text := ct, content_hash := ch,
          last_crawled_at := lc, status := st, http_status := hs,
          updated_at := ua }
      else x) = pageKeyMatch c u x := by
  by_cases hx : x.id == r0.id <;> simp [pageKeyMatch, hx]

theorem filter_map_key_invariant {α : Type} (p : α → Bool) (f : α → α)
    (hf : ∀ x, p (f x) = p x) (db : List α) :
    (db.map f).filter p = (db.filter p).map f := by
  rw [List.filter_map]
  congr 1
  apply List.filter_congr
  intro x _
  simp only [Function.comp_apply, hf]

theorem upsertPage_second_unchanged (hash : String → String) (fid now : String)
    (db : List RagPageRow) (args : UpsertPageArgs) (r : RagPageRow)
    (hm : db.filter (pageKeyMatch args.chatbotId args.url) = [r])
    (hh : r.content_hash = some (hash args.contentText)) :
    ∃ db2 pid2, upsertPage hash fid now db args = .ok (db2, pid2, false) := by
  have hstep : upsertPage hash fid now db args =
      .ok (db.map (fun x =>
        if x.id == r.id then
          { x with
            title := args.title, content_text := args.contentText,
            content_hash := some (hash args.contentText),
            last_crawled_at := now, status := args.status.getD "ok",
            http_status := args.httpStatus, updated_at := now }
        else x), r.id, false) := by
    simp only [upsertPage, maybeSingle, hm, hh, bne_self_eq_false]
  exact ⟨_, _, hstep⟩

/-- C1: `upsertPage` returns `changed = true` exactly when no stored row
matches the (tenant, url) key or the stored content hash differs from the
hash of the supplied text; and a second call with the same arguments on the
resulting table succeeds and returns `changed = false`. -/
theorem upsertPage_changed_gate (hash : String → String)
    (freshId now freshId2 now2 : String) (db db1 : List RagPageRow)
    (args : UpsertPageArgs) (pageId : String) (changed : Bool)
    (h1 : upsertPage hash freshId now db args = .ok (db1, pageId, changed)) :
    (changed = true ↔ ∀ r ∈ db.filter (pageKeyMatch args.chatbotId args.url),
        r.content_hash ≠ some (hash args.contentText)) ∧
    (∃ db2 pageId2, upsertPage hash freshId2 now2 db1 args =
        .ok (db2, pageId2, false)) := by
  rcases hm : db.filter (pageKeyMatch args.chatbotId args.url) with _ | ⟨r0, tl⟩
  · simp only [upsertPage, maybeSingle, hm, Except.ok.injEq, Prod.mk.injEq] at h1
    obtain ⟨hdb, hpid, hch⟩ := h1
    constructor
    · rw [← hch]
      simp
    · have hfilter : db1.filter (pageKeyMatch args.chatbotId args.url) =
          [{ id := freshId, chatbot_id := args.chatbotId, url := args.url,
             title := args.title, content_text := args.contentText,
             content_hash := some (hash args.contentText), last_crawled_at := now,
             status := args.status.getD "ok", http_status := args.httpStatus,
             created_at := now, updated_at := now }] := by
        rw [← hdb, List.filter_append, hm, List.nil_append]
        simp [pageKeyMatch, List.filter]
      exact upsertPage_second_unchanged hash freshId2 now2 db1 args _ hfilter rfl
  · rcases tl with _ | ⟨r1, tl'⟩
    · simp only [upsertPage, maybeSingle, hm, Except.ok.injEq, Prod.mk.injEq] at h1
      obtain ⟨hdb, hpid, hch⟩ := h1
      constructor
      · rw [← hch]
        simp [bne_iff_ne]
      · have hcomm := filter_map_key_invariant
          (pageKeyMatch args.chatbotId args.url)
          (fun x =>
            if x.id == r0.id then
              { x with
                title := args.title, content_text := args.contentText,
                content_hash := some (hash args.contentText),
                last_crawled_at := now, status := args.status.getD "ok",
                http_status := args.httpStatus, updated_at := now }
            else x)
          (fun x => pageKeyMatch_update args.chatbotId args.url x r0
            args.title args.contentText (some (hash args.contentText)) now
            (args.status.getD "ok") args.httpStatus now) db
        rw [hm, List.map_singleton, hdb] at hcomm
        refine upsertPage_second_unchanged hash freshId2 now2 db1 args _ hcomm ?_
        simp
    · simp only [upsertPage, maybeSingle, hm] at h1
      exact absurd h1 (by simp)

/-- C1 witness: inserting a page into an empty table returns
`changed = true`; repeating the call with the same content returns
`changed = false`. -/
theorem upsertPage_changed_gate_witness :
    ((true : Bool) = true ↔
      ∀ r ∈ ([] : List RagPageRow).filter (pageKeyMatch "c1" "u1"),
        r.content_hash ≠ some ((fun s => s) "hello")) ∧
    (∃ db2 pageId2,
      upsertPage (fun s => s) "p2" "t2"
        [⟨"p1", "c1", "u1", none, "hello", some "hello", "t1", "ok", none,
          "t1", "t1"⟩]
        ⟨"c1", "u1", none, "hello", none, none⟩ = .ok (db2, pageId2, false)) :=
  upsertPage_changed_gate (fun s => s) "p1" "t1" "p2" "t2" []
    [⟨"p1", "c1", "u1", none, "hello", some "hello", "t1", "ok", none,
      "t1", "t1"⟩]
    ⟨"c1", "u1", none, "hello", none, none⟩ "p1" true (by rfl)

/-! ### replacePageChunks and failStuckIngestionRuns lemmas -/

/-- C3: `replacePageChunks` fails on a chunk/embedding length mismatch with
the table left unchanged; on matching lengths it removes every stored chunk
row of the page, appends exactly one row per supplied chunk (pairing each
chunk with its embedding, in order), and returns the number of inserted
rows. -/
theorem replacePageChunks_spec (db : List RagChunkRow) (chatbotId pageId : String)
    (chunks : List Chunk) (embeddings : List (List ℚ)) :
    (chunks.length ≠ embeddings.length →
      replacePageChunks db chatbotId pageId chunks embeddings =
        .error ({ message := "Chunk and embedding count mismatch",
                  statusCode := 500 }, db)) ∧
    (chunks.length = embeddings.length →
      replacePageChunks db chatbotId pageId chunks embeddings =
        .ok (db.filter (fun r => !(r.page_id == pageId)) ++
            (chunks.zip embeddings).map (mkChunkRow chatbotId pageId),
          chunks.length) ∧
      ((chunks.zip embeddings).map (mkChunkRow chatbotId pageId)).length =
        chunks.length ∧
      ∀ r ∈ (chunks.zip embeddings).map (mkChunkRow chatbotId pageId),
        r.page_id = pageId) := by
  constructor
  · intro h
    simp only [replacePageChunks, if_pos h]
  · intro h
    have hlen : ((chunks.zip embeddings).map (mkChunkRow chatbotId pageId)).length =
        chunks.length := by
      rw [List.length_map, List.length_zip]
      omega
    refine ⟨?_, hlen, ?_⟩
    · by_cases h0 : chunks.length = 0
      · have hc : chunks = [] := List.length_eq_zero.mp h0
        subst hc
        simp [replacePageChunks, h.symm]
      · have hne2 : ¬chunks.length ≠ embeddings.length := by omega
        simp only [replacePageChunks, if_neg hne2, if_neg h0]
        rw [hlen]
    · intro r hr
      rw [List.mem_map] at hr
      obtain ⟨ce, _, rfl⟩ := hr
      rfl

/-- C3 witness: a mismatched call on the empty table errors and leaves it
empty; a matched one-chunk call inserts exactly that row and returns 1. -/
theorem replacePageChunks_spec_witness :
    replacePageChunks ([] : List RagChunkRow) "c" "p" [⟨0, ['a'], 1⟩] [] =
      .error ({ message := "Chunk and embedding count mismatch",
                statusCode := 500 }, []) ∧
    replacePageChunks ([] : List RagChunkRow) "c" "p" [⟨0, ['a'], 1⟩]
        [[(1 : ℚ)]] =
      .ok (([] : List RagChunkRow).filter (fun r => !(r.page_id == "p")) ++
          ([(⟨0, ['a'], 1⟩ : Chunk)].zip [[(1 : ℚ)]]).map (mkChunkRow "c" "p"),
        1) :=
  ⟨(replacePageChunks_spec [] "c" "p" [⟨0, ['a'], 1⟩] []).1 (by decide),
   ((replacePageChunks_spec [] "c" "p" [⟨0, ['a'], 1⟩] [[(1 : ℚ)]]).2 rfl).1⟩

theorem isStaleRunning_spec (sb : Nat) (r : RagIngestionRunRow) :
    isStaleRunning sb r = decide (r.status = RunStatus.running ∧ r.updated_at < sb) := by
  by_cases h1 : r.status = RunStatus.running <;>
    by_cases h2 : r.updated_at < sb <;> simp [isStaleRunning, h1, h2]

/-- C8: the stale sweep rewrites exactly the rows whose status is running
and whose heartbeat is older than the cutoff — setting status failed, the
scheduler staleness message, finished_at and a fresh heartbeat — leaves
every other row unchanged, and returns the number of rewritten rows. -/
theorem failStuckIngestionRuns_spec (now staleBefore : Nat)
    (db : List RagIngestionRunRow) :
    (failStuckIngestionRuns now db staleBefore).1.length = db.length ∧
    (∀ (i : Nat) (r : RagIngestionRunRow), db[i]? = some r →
      (r.status = RunStatus.running ∧ r.updated_at < staleBefore →
        (failStuckIngestionRuns now db staleBefore).1[i]? =
          some { r with
            status := RunStatus.failed, error := some staleHeartbeatMessage,
            finished_at := some now, updated_at := now }) ∧
      (¬(r.status = RunStatus.running ∧ r.updated_at < staleBefore) →
        (failStuckIngestionRuns now db staleBefore).1[i]? = some r)) ∧
    (failStuckIngestionRuns now db staleBefore).2 =
      (db.filter (fun r => decide (r.status = RunStatus.running ∧
        r.updated_at < staleBefore))).length := by
  refine ⟨by simp [failStuckIngestionRuns], ?_, ?_⟩
  · intro i r hr
    constructor
    · intro hcond
      have hb : isStaleRunning staleBefore r = true := by
        rw [isStaleRunning_spec]
        exact decide_eq_true hcond
      simp only [failStuckIngestionRuns, List.getElem?_map, hr, Option.map_some',
        hb, if_true]
    · intro hcond
      have hb : isStaleRunning staleBefore r = false := by
        rw [isStaleRunning_spec]
        exact decide_eq_false hcond
      simp only [failStuckIngestionRuns, List.getElem?_map, hr, Option.map_some',
        hb, Bool.false_eq_true, if_false]
  · simp only [failStuckIngestionRuns]
    congr 1
    apply List.filter_congr
    intro r _
    exact isStaleRunning_spec staleBefore r

/-- C8 witness: a stale running run is rewritten to failed with the
staleness message; a finished run is left untouched. -/
theorem failStuckIngestionRuns_spec_witness :
    (failStuckIngestionRuns 100
        [⟨"r1", "c1", RunStatus.running, none, none, 0⟩,
         ⟨"r2", "c1", RunStatus.done, none, none, 0⟩] 10).1[0]? =
      some ⟨"r1", "c1", RunStatus.failed, some staleHeartbeatMessage,
        some 100, 100⟩ ∧
    (failStuckIngestionRuns 100
        [⟨"r1", "c1", RunStatus.running, none, none, 0⟩,
         ⟨"r2", "c1", RunStatus.done, none, none, 0⟩] 10).1[1]? =
      some ⟨"r2", "c1", RunStatus.done, none, none, 0⟩ :=
  ⟨((failStuckIngestionRuns_spec 100 10
      [⟨"r1", "c1", RunStatus.running, none, none, 0⟩,
       ⟨"r2", "c1", RunStatus.done, none, none, 0⟩]).2.1 0
      ⟨"r1", "c1", RunStatus.running, none, none, 0⟩ rfl).1
      ⟨rfl, by decide⟩,
   ((failStuckIngestionRuns_spec 100 10
      [⟨"r1", "c1", RunStatus.running, none, none, 0⟩,
       ⟨"r2", "c1", RunStatus.done, none, none, 0⟩]).2.1 1
      ⟨"r2", "c1", RunStatus.done, none, none, 0⟩ rfl).2
      (by decide)⟩

/-! ### Crawler (src/rag/crawler.ts)

URLs are `List Char`.  The WHATWG `URL` parsing of `normalizeUrl` and
`getHostname` and the network (sitemap fetch, page fetch + cheerio link
extraction, Playwright rendering) are oracles: `UrlLib` supplies the URL
library, `CrawlWeb` supplies, per fetched URL, the raw `href` attributes a
successful 2xx text/html response yields (`none` for any fetch failure,
non-2xx status or non-HTML content type), and the hrefs the Playwright
fallback yields. -/

/-- The URL-library oracle: `normalizeUrl(raw, base?)` and
`getHostname(url)` (already lower-cased), `none` on parse failure. -/
structure UrlLib where
  normalizeUrl : List Char → Option (List Char) → Option (List Char)
  getHostname : List Char → Option (List Char)

/-- The network oracle for one discovery run. -/
structure CrawlWeb where
  sitemapUrls : List (List Char)
  pageHrefs : List Char → Option (List (List Char))
  renderedHrefs : List Char → Option (List (List Char))

/-- `blockedPathFragments` from crawler.ts. -/
def blockedPathFragments : List (List Char) :=
  ["/wp-admin", "/account", "/checkout", "/cart", "/login", "/signup",
   "/auth", "/admin"].map String.toList

/-- `skipExtensions` from crawler.ts. -/
def skipExtensions : List (List Char) :=
  [".pdf", ".jpg", ".jpeg", ".png", ".gif", ".svg", ".webp", ".css", ".js",
   ".ico", ".woff", ".woff2", ".ttf", ".zip", ".mp4", ".mp3"].map String.toList

/-- `haystack.includes(pat)` on code-unit lists. -/
def containsFragment (pat : List Char) : List Char → Bool
  | [] => pat.isEmpty
  | c :: rest => pat.isPrefixOf (c :: rest) || containsFragment pat rest

/-- `haystack.endsWith(pat)` on code-unit lists. -/
def endsWithFragment (pat hay : List Char) : Bool :=
  pat.reverse.isPrefixOf hay.reverse

/-- `shouldSkipUrl` from crawler.ts. -/
def shouldSkipUrl (url : List Char) : Bool :=
  let lower := url.map Char.toLower
  blockedPathFragments.any (fun fragment => containsFragment fragment lower) ||
    skipExtensions.any (fun ext => endsWithFragment ext lower)

/-- `extractInternalLinks`: normalize each non-empty href against the page
URL, keep same-host links that are not skipped. -/
def extractInternalLinks (lib : UrlLib) (hrefs : List (List Char))
    (pageUrl rootHost : List Char) : List (List Char) :=
  (((hrefs.filter (fun h => !h.isEmpty)).filterMap
      (fun h => lib.normalizeUrl h (some pageUrl))).filter
    (fun u => lib.getHostname u == some rootHost && !shouldSkipUrl u))

/-- The filter applied to Playwright-rendered hrefs in the fallback branch
of the BFS loop (same chain of map/filters as in the source). -/
def filterRenderedLinks (lib : UrlLib) (hrefs : List (List Char))
    (pageUrl rootHost : List Char) : List (List Char) :=
  ((hrefs.filterMap (fun h => lib.normalizeUrl h (some pageUrl))).filter
      (fun u => lib.getHostname u == some rootHost)).filter
    (fun u => !shouldSkipUrl u)

/-- The seed/sitemap accumulation loop: normalize against the root URL,
keep same-host non-skipped URLs, stop early (returning `true`) once the
dedup set has reached `maxPages`. -/
def addDiscovered (lib : UrlLib) (rootUrl rootHost : List Char) (maxPages : Nat) :
    List (List Char) → List (List Char) → List (List Char) × Bool
  | [], dedup => (dedup, false)
  | raw :: rest, dedup =>
    match lib.normalizeUrl raw (some rootUrl) with
    | none => addDiscovered lib rootUrl rootHost maxPages rest dedup
    | some normalized =>
      if !(lib.getHostname normalized == some rootHost) then
        addDiscovered lib rootUrl rootHost maxPages rest dedup
      else if shouldSkipUrl normalized then
        addDiscovered lib rootUrl rootHost maxPages rest dedup
      else
        let dedup1 := if dedup.contains normalized then dedup
          else dedup ++ [normalized]
        if maxPages ≤ dedup1.length then (dedup1, true)
        else addDiscovered lib rootUrl rootHost maxPages rest dedup1

/-- The inner `for (const link of links)` loop of the BFS: push unseen
links into the dedup set and the queue, breaking once `maxPages` is
reached. -/
def pushLinks (maxPages : Nat) :
    List (List Char) → List (List Char) → List (List Char) →
      List (List Char) × List (List Char)
  | [], dedup, acc => (dedup, acc)
  | link :: rest, dedup, acc =>
    if dedup.contains link then pushLinks maxPages rest dedup acc
    else
      let dedup1 := dedup ++ [link]
      let acc1 := acc ++ [link]
      if maxPages ≤ dedup1.length then (dedup1, acc1)
      else pushLinks maxPages rest dedup1 acc1

/-- The `while (queue.length > 0 && dedup.size < maxPages)` loop of
`discoverWebsiteUrls`.  The fuel bounds the number of iterations; running
out of fuel returns the current dedup set, exactly as loop exit does. -/
def bfsCrawl (lib : UrlLib) (web : CrawlWeb) (rootHost : List Char)
    (maxPages : Nat) :
    Nat → List (List Char) → List (List Char) → List (List Char) →
      List (List Char)
  | 0, _, dedup, _ => dedup
  | fuel + 1, queue, dedup, visited =>
    if maxPages ≤ dedup.length then dedup
    else
      match queue with
      | [] => dedup
      | current :: queueRest =>
        if visited.contains current then
          bfsCrawl lib web rootHost maxPages fuel queueRest dedup visited
        else
          let visited1 := current :: visited
          match web.pageHrefs current with
          | none => bfsCrawl lib web rootHost maxPages fuel queueRest dedup visited1
          | some hrefs =>
            let links := extractInternalLinks lib hrefs current rootHost
            let links1 :=
              if links.isEmpty then
                match web.renderedHrefs current with
                | none => []
                | some rendered => filterRenderedLinks lib rendered current rootHost
              else links
            let pushed := pushLinks maxPages links1 dedup []
            bfsCrawl lib web rootHost maxPages fuel (queueRest ++ pushed.2)
              pushed.1 visited1

/-- `discoverWebsiteUrls` from crawler.ts (the axios/Playwright variant with
seed URLs).  `maxPagesRaw` is the caller-supplied JS number. -/
def discoverWebsiteUrls (lib : UrlLib) (web : CrawlWeb)
    (websiteUrl : List Char) (seedUrls : List (List Char))
    (maxPagesRaw : Int) (fuel : Nat) : Except String (List (List Char)) :=
  let maxPages := (max 1 (min maxPagesRaw 200)).toNat
  match lib.normalizeUrl websiteUrl none with
  | none => .error "Invalid website URL"
  | some rootUrl =>
    match lib.getHostname rootUrl with
    | none => .error "Invalid website host"
    | some rootHost =>
      let d0 := [rootUrl]
      let seeded := addDiscovered lib rootUrl rootHost maxPages seedUrls d0
      if seeded.2 then .ok (seeded.1.take maxPages)
      else
        let mapped := addDiscovered lib rootUrl rootHost maxPages
          web.sitemapUrls seeded.1
        if mapped.2 then .ok (mapped.1.take maxPages)
        else
          .ok ((bfsCrawl lib web rootHost maxPages fuel mapped.1 mapped.1
            []).take maxPages)

/-! ### Crawler lemmas -/

/-- The property every URL added by a filter-passing branch satisfies:
same host as the root (per the URL library) and not skipped. -/
def urlOk (lib : UrlLib) (rootHost u : List Char) : Prop :=
  lib.getHostname u = some rootHost ∧ shouldSkipUrl u = false

theorem mem_dedupAdd {dedup : List (List Char)} {x u : List Char}
    (hu : u ∈ (if dedup.contains x then dedup else dedup ++ [x])) :
    u ∈ dedup ∨ u = x := by
  split at hu
  · exact Or.inl hu
  · rw [List.mem_append, List.mem_singleton] at hu
    exact hu

theorem nodup_dedupAdd {dedup : List (List Char)} {x : List Char}
    (h : dedup.Nodup) :
    (if dedup.contains x then dedup else dedup ++ [x]).Nodup := by
  split
  · exact h
  · rename_i hc
    have hx : x ∉ dedup := by
      rw [Bool.not_eq_true] at hc
      simpa using hc
    simp [List.nodup_append, h, hx]

theorem addDiscovered_nodup (lib : UrlLib) (ru rh : List Char) (mp : Nat) :
    ∀ (raws dedup : List (List Char)), dedup.Nodup →
      ((addDiscovered lib ru rh mp raws dedup).1).Nodup := by
  intro raws
  induction raws with
  | nil => intro dedup h; exact h
  | cons raw rest ih =>
    intro dedup h
    simp only [addDiscovered]
    split
    · exact ih dedup h
    · rename_i normalized heq
      split
      · exact ih dedup h
      · split
        · exact ih dedup h
        · split
          · split
            · exact h
            · exact ih _ h
          · rename_i hc
            have hx2 : normalized ∉ dedup := by
              rw [Bool.not_eq_true] at hc
              simpa using hc
            have h1 : (dedup ++ [normalized]).Nodup := by
              simp [List.nodup_append, h, hx2]
            split
            · exact h1
            · exact ih _ h1

theorem addDiscovered_mem (lib : UrlLib) (ru rh : List Char) (mp : Nat) :
    ∀ (raws dedup : List (List Char)) (u : List Char),
      u ∈ (addDiscovered lib ru rh mp raws dedup).1 →
      u ∈ dedup ∨ urlOk lib rh u := by
  intro raws
  induction raws with
  | nil => intro dedup u hu; exact Or.inl hu
  | cons raw rest ih =>
    intro dedup u hu
    simp only [addDiscovered] at hu
    split at hu
    · exact ih dedup u hu
    · rename_i normalized heq
      split at hu
      · exact ih dedup u hu
      · rename_i hhost
        split at hu
        · exact ih dedup u hu
        · rename_i hskip
          have hok : urlOk lib rh normalized := by
            constructor
            · have hb : (lib.getHostname normalized == some rh) = true := by
                simpa using hhost
              exact eq_of_beq hb
            · rw [Bool.not_eq_true] at hskip
              exact hskip
          split at hu
          · split at hu
            · exact Or.inl hu
            · rcases ih _ u hu with h1 | h1
              · exact Or.inl h1
              · exact Or.inr h1
          · split at hu
            · rw [List.mem_append, List.mem_singleton] at hu
              rcases hu with h1 | h1
              · exact Or.inl h1
              · exact Or.inr (h1 ▸ hok)
            · rcases ih _ u hu with h1 | h1
              · rw [List.mem_append, List.mem_singleton] at h1
                rcases h1 with h2 | h2
                · exact Or.inl h2
                · exact Or.inr (h2 ▸ hok)
              · exact Or.inr h1

theorem pushLinks_nodup (mp : Nat) :
    ∀ (links dedup acc : List (List Char)), dedup.Nodup →
      ((pushLinks mp links dedup acc).1).Nodup := by
  intro links
  induction links with
  | nil => intro dedup acc h; exact h
  | cons link rest ih =>
    intro dedup acc h
    simp only [pushLinks]
    split
    · exact ih dedup acc h
    · rename_i hc
      have hx : link ∉ dedup := by
        rw [Bool.not_eq_true] at hc
        simpa using hc
      have h1 : (dedup ++ [link]).Nodup := by
        simp [List.nodup_append, h, hx]
      split
      · exact h1
      · exact ih _ _ h1

theorem pushLinks_mem (mp : Nat) :
    ∀ (links dedup acc : List (List Char)) (u : List Char),
      u ∈ (pushLinks mp links dedup acc).1 →
      u ∈ dedup ∨ u ∈ links := by
  intro links
  induction links with
  | nil => intro dedup acc u hu; exact Or.inl hu
  | cons link rest ih =>
    intro dedup acc u hu
    simp only [pushLinks] at hu
    split at hu
    · rcases ih dedup acc u hu with h1 | h1
      · exact Or.inl h1
      · exact Or.inr (List.mem_cons_of_mem link h1)
    · split at hu
      · rw [List.mem_append, List.mem_singleton] at hu
        rcases hu with h1 | h1
        · exact Or.inl h1
        · exact Or.inr (h1 ▸ List.mem_cons_self link rest)
      · rcases ih _ _ u hu with h1 | h1
        · rw [List.mem_append, List.mem_singleton] at h1
          rcases h1 with h2 | h2
          · exact Or.inl h2
          · exact Or.inr (h2 ▸ List.mem_cons_self link rest)
        · exact Or.inr (List.mem_cons_of_mem link h1)

theorem extractInternalLinks_ok (lib : UrlLib) (hrefs : List (List Char))
    (pageUrl rootHost u : List Char)
    (hu : u ∈ extractInternalLinks lib hrefs pageUrl rootHost) :
    urlOk lib rootHost u := by
  unfold extractInternalLinks at hu
  rw [List.mem_filter] at hu
  obtain ⟨-, hcond⟩ := hu
  rw [Bool.and_eq_true] at hcond
  obtain ⟨h1, h2⟩ := hcond
  refine ⟨eq_of_beq h1, ?_⟩
  simpa using h2

theorem filterRenderedLinks_ok (lib : UrlLib) (hrefs : List (List Char))
    (pageUrl rootHost u : List Char)
    (hu : u ∈ filterRenderedLinks lib hrefs pageUrl rootHost) :
    urlOk lib rootHost u := by
  unfold filterRenderedLinks at hu
  rw [List.mem_filter] at hu
  obtain ⟨hu1, h2⟩ := hu
  rw [List.mem_filter] at hu1
  obtain ⟨-, h1⟩ := hu1
  refine ⟨eq_of_beq h1, ?_⟩
  simpa using h2

theorem bfsCrawl_nodup (lib : UrlLib) (web : CrawlWeb) (rootHost : List Char)
    (mp : Nat) :
    ∀ (fuel : Nat) (queue dedup visited : List (List Char)), dedup.Nodup →
      (bfsCrawl lib web rootHost mp fuel queue dedup visited).Nodup := by
  intro fuel
  induction fuel with
  | zero => intro queue dedup visited h; exact h
  | succ fuel ih =>
    intro queue dedup visited h
    simp only [bfsCrawl]
    split
    · exact h
    · split
      · exact h
      · split
        · exact ih _ _ _ h
        · split
          · exact ih _ _ _ h
          · exact ih _ _ _ (pushLinks_nodup mp _ _ _ h)

theorem bfsCrawl_mem (lib : UrlLib) (web : CrawlWeb) (rootHost : List Char)
    (mp : Nat) :
    ∀ (fuel : Nat) (queue dedup visited : List (List Char)) (u : List Char),
      u ∈ bfsCrawl lib web rootHost mp fuel queue dedup visited →
      u ∈ dedup ∨ urlOk lib rootHost u := by
  intro fuel
  induction fuel with
  | zero => intro queue dedup visited u hu; exact Or.inl hu
  | succ fuel ih =>
    intro queue dedup visited u hu
    simp only [bfsCrawl] at hu
    split at hu
    · exact Or.inl hu
    · split at hu
      · exact Or.inl hu
      · rename_i current queueRest
        split at hu
        · exact ih _ _ _ u hu
        · split at hu
          · exact ih _ _ _ u hu
          · rename_i hrefs hfetch
            rcases ih _ _ _ u hu with h1 | h1
            · rcases pushLinks_mem mp _ _ _ u h1 with h2 | h2
              · exact Or.inl h2
              · right
                revert h2
                split
                · split
                  · intro h2; exact absurd h2 (List.not_mem_nil u)
                  · exact filterRenderedLinks_ok lib _ _ _ u
                · exact extractInternalLinks_ok lib _ _ _ u
            · exact Or.inr h1

/-- C6: a successful `discoverWebsiteUrls` returns pairwise-distinct URLs,
at most `min(max(maxPages, 1), 200)` of them, and never more than 200
regardless of the caller-supplied `maxPages`. -/
theorem discoverWebsiteUrls_nodup_bounded (lib : UrlLib) (web : CrawlWeb)
    (websiteUrl : List Char) (seedUrls : List (List Char)) (maxPagesRaw : Int)
    (fuel : Nat) (out : List (List Char))
    (h : discoverWebsiteUrls lib web websiteUrl seedUrls maxPagesRaw fuel =
      .ok out) :
    out.Nodup ∧ (out.length : Int) ≤ min (max maxPagesRaw 1) 200 ∧
      out.length ≤ 200 := by
  have key : ∀ X : List (List Char), X.Nodup →
      out = X.take ((max 1 (min maxPagesRaw 200)).toNat) →
      out.Nodup ∧ (out.length : Int) ≤ min (max maxPagesRaw 1) 200 ∧
        out.length ≤ 200 := by
    intro X hX hout
    subst hout
    refine ⟨hX.sublist (List.take_sublist _ _), ?_, ?_⟩
    · have h1 := List.length_take_le ((max 1 (min maxPagesRaw 200)).toNat) X
      omega
    · have h1 := List.length_take_le ((max 1 (min maxPagesRaw 200)).toNat) X
      omega
  cases hn : lib.normalizeUrl websiteUrl none with
  | none =>
    simp only [discoverWebsiteUrls, hn] at h
    exact absurd h (by simp)
  | some rootUrl =>
    cases hh : lib.getHostname rootUrl with
    | none =>
      simp only [discoverWebsiteUrls, hn, hh] at h
      exact absurd h (by simp)
    | some rootHost =>
      simp only [discoverWebsiteUrls, hn, hh] at h
      have hd0 : ([rootUrl] : List (List Char)).Nodup := List.nodup_singleton _
      have hseed := addDiscovered_nodup lib rootUrl rootHost
        ((max 1 (min maxPagesRaw 200)).toNat) seedUrls [rootUrl] hd0
      have hmap := addDiscovered_nodup lib rootUrl rootHost
        ((max 1 (min maxPagesRaw 200)).toNat) web.sitemapUrls
        (addDiscovered lib rootUrl rootHost
          ((max 1 (min maxPagesRaw 200)).toNat) seedUrls [rootUrl]).1 hseed
      split at h
      · rw [Except.ok.injEq] at h
        exact key _ hseed h.symm
      · split at h
        · rw [Except.ok.injEq] at h
          exact key _ hmap h.symm
        · rw [Except.ok.injEq] at h
          exact key _ (bfsCrawl_nodup lib web rootHost _ fuel _ _ [] hmap) h.symm

/-- C6 witness: a single-page site with a trivial URL library. -/
theorem discoverWebsiteUrls_nodup_bounded_witness :
    (["x".toList] : List (List Char)).Nodup ∧
    ((["x".toList] : List (List Char)).length : Int) ≤ min (max 5 1) 200 ∧
    (["x".toList] : List (List Char)).length ≤ 200 :=
  discoverWebsiteUrls_nodup_bounded
    { normalizeUrl := fun raw _ => some raw, getHostname := fun _ => some ['h'] }
    { sitemapUrls := [], pageHrefs := fun _ => none,
      renderedHrefs := fun _ => none }
    "x".toList [] 5 3 ["x".toList] rfl

/-- C7 (amended): every URL returned by `discoverWebsiteUrls` other than
the normalized root URL has the root's hostname (per the URL library) and
passes the blocked-fragment and skipped-extension filter.  The root URL
itself is seeded into the result set without being filtered, which is what
forces the exception (see the counterexample). -/
theorem discoverWebsiteUrls_filtered_except_root (lib : UrlLib) (web : CrawlWeb)
    (websiteUrl : List Char) (seedUrls : List (List Char)) (maxPagesRaw : Int)
    (fuel : Nat) (out : List (List Char)) (rootUrl rootHost : List Char)
    (h : discoverWebsiteUrls lib web websiteUrl seedUrls maxPagesRaw fuel =
      .ok out)
    (hroot : lib.normalizeUrl websiteUrl none = some rootUrl)
    (hhost : lib.getHostname rootUrl = some rootHost) :
    ∀ u ∈ out, u = rootUrl ∨
      (lib.getHostname u = some rootHost ∧ shouldSkipUrl u = false) := by
  intro u hu
  simp only [discoverWebsiteUrls, hroot, hhost] at h
  have root_or : ∀ v, v ∈ ([rootUrl] : List (List Char)) ∨ urlOk lib rootHost v →
      v = rootUrl ∨ (lib.getHostname v = some rootHost ∧ shouldSkipUrl v = false) := by
    intro v hv
    rcases hv with h1 | h1
    · exact Or.inl (List.mem_singleton.mp h1)
    · exact Or.inr h1
  split at h
  · rw [Except.ok.injEq] at h
    subst h
    exact root_or u (addDiscovered_mem lib rootUrl rootHost _ seedUrls _ u
      (List.take_subset _ _ hu))
  · split at h
    · rw [Except.ok.injEq] at h
      subst h
      rcases addDiscovered_mem lib rootUrl rootHost _ web.sitemapUrls _ u
          (List.take_subset _ _ hu) with h1 | h1
      · exact root_or u (addDiscovered_mem lib rootUrl rootHost _ seedUrls _ u h1)
      · exact Or.inr h1
    · rw [Except.ok.injEq] at h
      subst h
      rcases bfsCrawl_mem lib web rootHost _ fuel _ _ [] u
          (List.take_subset _ _ hu) with h1 | h1
      · rcases addDiscovered_mem lib rootUrl rootHost _ web.sitemapUrls _ u
            h1 with h2 | h2
        · exact root_or u (addDiscovered_mem lib rootUrl rootHost _ seedUrls _ u h2)
        · exact Or.inr h2
      · exact Or.inr h1

/-- C7 witness: with a trivial URL library and an unreachable site, the
only returned URL is the root itself, which the amended theorem allows. -/
theorem discoverWebsiteUrls_filtered_except_root_witness :
    "x".toList = "x".toList ∨
      ((UrlLib.mk (fun raw _ => some raw)
          (fun _ => some ['h'])).getHostname "x".toList = some ['h'] ∧
        shouldSkipUrl "x".toList = false) :=
  discoverWebsiteUrls_filtered_except_root
    (UrlLib.mk (fun raw _ => some raw) (fun _ => some ['h']))
    { sitemapUrls := [], pageHrefs := fun _ => none,
      renderedHrefs := fun _ => none }
    "x".toList [] 5 3 ["x".toList] "x".toList ['h'] rfl rfl rfl
    "x".toList (List.mem_singleton.mpr rfl)

/-- C7 counterexample: the claim as stated is false.  The root URL enters
the dedup set before any filtering, so a website URL whose path contains
the blocked fragment "/login" appears in the returned list even though
`shouldSkipUrl` rejects it. -/
theorem discoverWebsiteUrls_root_unfiltered_counterexample :
    discoverWebsiteUrls
      (UrlLib.mk (fun raw _ => some raw) (fun _ => some ['h']))
      { sitemapUrls := [], pageHrefs := fun _ => none,
        renderedHrefs := fun _ => none }
      "https://example.com/login".toList [] 5 3 =
      .ok ["https://example.com/login".toList] ∧
    shouldSkipUrl "https://example.com/login".toList = true :=
  ⟨rfl, rfl⟩

/-! ### rag_match_chunks (supabase migration 002_rag.sql)

The pgvector cosine-distance operator `<=>` is the oracle `dist`; `ORDER BY
c.embedding <=> q` is a sort on that distance and
`1 - (c.embedding <=> q)` is the reported similarity. -/

/-- A row of the `rag_match_chunks` result set. -/
structure MatchRow where
  chunk_text : List Char
  url : String
  similarity : ℚ
deriving DecidableEq, Repr

/-- The `from rag_chunks c inner join rag_pages p on p.id = c.page_id
where c.chatbot_id = p_chatbot_id` part of the query. -/
def ragMatchJoined (chunks : List RagChunkRow) (pages : List RagPageRow)
    (chatbotId : String) : List (RagChunkRow × RagPageRow) :=
  (chunks.filter (fun c => c.chatbot_id == chatbotId)).flatMap
    (fun c => (pages.filter (fun p => p.id == c.page_id)).map (fun p => (c, p)))

/-- The joined rows ordered by distance to the query and limited to
`greatest(1, least(coalesce(p_match_count, 8), 20))`. -/
def ragMatchSelected (dist : List ℚ → List ℚ → ℚ) (chunks : List RagChunkRow)
    (pages : List RagPageRow) (chatbotId : String) (query : List ℚ)
    (matchCount : Option Int) : List (RagChunkRow × RagPageRow) :=
  (List.insertionSort
      (fun a b => dist a.1.embedding query ≤ dist b.1.embedding query)
      (ragMatchJoined chunks pages chatbotId)).take
    ((max 1 (min (matchCount.getD 8) 20)).toNat)

/-- `rag_match_chunks` from 002_rag.sql. -/
def rag_match_chunks (dist : List ℚ → List ℚ → ℚ) (chunks : List RagChunkRow)
    (pages : List RagPageRow) (chatbotId : String) (query : List ℚ)
    (matchCount : Option Int) : List MatchRow :=
  (ragMatchSelected dist chunks pages chatbotId query matchCount).map
    (fun cp => ⟨cp.1.chunk_text, cp.2.url, 1 - dist cp.1.embedding query⟩)

/-- C9: the chunk-match query returns at most `min(max(topK, 1), 20)` rows
(`topK` defaulting to 8 when absent via `coalesce`), every selected chunk
row belongs to the requested tenant's chatbot id, and the result is ordered
by decreasing cosine similarity to the query embedding. -/
theorem rag_match_chunks_spec (dist : List ℚ → List ℚ → ℚ)
    (chunks : List RagChunkRow) (pages : List RagPageRow) (chatbotId : String)
    (query : List ℚ) (matchCount : Option Int) :
    ((rag_match_chunks dist chunks pages chatbotId query matchCount).length :
        Int) ≤ min (max (matchCount.getD 8) 1) 20 ∧
    (∀ cp ∈ ragMatchSelected dist chunks pages chatbotId query matchCount,
      cp.1.chatbot_id = chatbotId) ∧
    rag_match_chunks dist chunks pages chatbotId query matchCount =
      (ragMatchSelected dist chunks pages chatbotId query matchCount).map
        (fun cp => ⟨cp.1.chunk_text, cp.2.url, 1 - dist cp.1.embedding query⟩) ∧
    List.Pairwise (fun a b => b.similarity ≤ a.similarity)
      (rag_match_chunks dist chunks pages chatbotId query matchCount) := by
  refine ⟨?_, ?_, rfl, ?_⟩
  · have h1 : (ragMatchSelected dist chunks pages chatbotId query
        matchCount).length ≤ (max 1 (min (matchCount.getD 8) 20)).toNat := by
      unfold ragMatchSelected
      exact List.length_take_le _ _
    have h2 : (rag_match_chunks dist chunks pages chatbotId query
        matchCount).length = (ragMatchSelected dist chunks pages chatbotId
        query matchCount).length := by
      unfold rag_match_chunks
      exact List.length_map _ _
    rw [h2]
    generalize matchCount.getD 8 = a at h1 ⊢
    omega
  · intro cp hcp
    have hmem : cp ∈ ragMatchJoined chunks pages chatbotId := by
      have h1 : cp ∈ List.insertionSort
          (fun a b => dist a.1.embedding query ≤ dist b.1.embedding query)
          (ragMatchJoined chunks pages chatbotId) :=
        List.take_subset _ _ hcp
      exact ((List.perm_insertionSort _ _).mem_iff).mp h1
    unfold ragMatchJoined at hmem
    rw [List.mem_flatMap] at hmem
    obtain ⟨c, hc, hcp2⟩ := hmem
    rw [List.mem_map] at hcp2
    obtain ⟨p, -, rfl⟩ := hcp2
    rw [List.mem_filter] at hc
    exact eq_of_beq hc.2
  · haveI ht : IsTotal (RagChunkRow × RagPageRow)
        (fun a b => dist a.1.embedding query ≤ dist b.1.embedding query) :=
      ⟨fun a b => le_total _ _⟩
    haveI htr : IsTrans (RagChunkRow × RagPageRow)
        (fun a b => dist a.1.embedding query ≤ dist b.1.embedding query) :=
      ⟨fun a b c hab hbc => le_trans hab hbc⟩
    have hs := List.sorted_insertionSort
      (fun (a b : RagChunkRow × RagPageRow) =>
        dist a.1.embedding query ≤ dist b.1.embedding query)
      (ragMatchJoined chunks pages chatbotId)
    have hsel : List.Pairwise
        (fun (a b : RagChunkRow × RagPageRow) =>
          dist a.1.embedding query ≤ dist b.1.embedding query)
        (ragMatchSelected dist chunks pages chatbotId query matchCount) :=
      hs.sublist (List.take_sublist _ _)
    unfold rag_match_chunks
    rw [List.pairwise_map]
    exact hsel.imp (fun h => sub_le_sub_left h 1)
